import Mathlib

/-
Verification of the batching, parsing and writing logic of the Pinecone
destination connector (conduitio-labs/conduit-connector-pinecone).

The development shallow-embeds the Go source:
  - the record payload parsing chain (src/utils.go, the final revision in
    src/unnamed/part_010: recordID, pineconeVectorValues, PineconeSparseValues,
    parsePineconeVectorValues, parsePineconeMetadata, parsePineconeVector);
  - the legacy batch builder buildBatches (src/utils.go lines 174-212);
  - the multicollection writer (src/batches.go, opencdc revision:
    parseNamespace, addIndexIfMissing, addNewBatch, addToPreviousBatch,
    multicollectionWriter.buildBatches, multicollectionWriter.writeRecords,
    recordBatch with upsertBatch and deleteBatch).

Remote calls (index creation, bulk upsert, bulk delete) are parametrized by an
environment of response functions, and the byte-level JSON decoding of
payload.after is abstracted by the outcome of the decode, so every definition
stays executable.
-/

namespace PineconeConn

deriving instance DecidableEq for Except

/-- Raw 32-bit float as carried by the connector: the code never computes with
vector values, it only copies them verbatim from the decoded JSON into the
Pinecone vector, so the bit pattern is kept opaque. -/
structure F32 where
  bits : Nat
deriving DecidableEq

/-- Operations of an opencdc record (operation field). -/
inductive Operation
| create
| update
| snapshot
| delete
deriving DecidableEq

/-- Decoded sparse_values JSON object (type sparseValues in the source,
src/utils.go lines 66-69): indices are uint32 values, values are float32
values; both are carried verbatim. -/
structure SparseValues where
  indices : List Nat
  values : List F32
deriving DecidableEq

/-- Decoded payload.after JSON object (type pineconeVectorValues in the
source). When the sparse_values field is absent in the JSON, Go decoding
leaves the zero value, which is the same as decoding empty arrays. -/
structure PineconeVectorValues where
  values : List F32
  sparseValues : SparseValues
deriving DecidableEq

/-- Abstraction of the byte string stored in payload.after, classified by what
json.Unmarshal into pineconeVectorValues does with it: it is zero length, it
fails to decode, or it decodes to a value. -/
inductive PayloadData
| emptyBytes
| malformed
| decodes (v : PineconeVectorValues)
deriving DecidableEq

/-- Change payload of a record: the connector reads only the after field;
before is always ignored. none models a nil opencdc.Data. -/
structure Change where
  before : Option PayloadData
  after : Option PayloadData
deriving DecidableEq

/-- One opencdc record, restricted to the fields this connector reads.
The key is kept as the string of its raw bytes, because the code only ever
uses string(key.Bytes()). -/
structure Record where
  operation : Operation
  key : String
  metadata : List (String × String)
  payload : Change
deriving DecidableEq

/-- Error outcomes of the embedded functions. remote codes stand for errors
produced by the Pinecone client or server. -/
inductive Err
| emptyPayload
| unmarshalJSON
| missingMetadata
| templateEval
| indexNotFound
| remote (code : Nat)
deriving DecidableEq

/-- Pinecone vector as built by parsePineconeVector. The metadata field stands
for the structpb struct built from the metadata map; since metadata values are
strings, structpb.NewStruct cannot fail on them. none in sparseValues models
the nil pointer. -/
structure Vector where
  id : String
  values : List F32
  sparseValues : Option SparseValues
  metadata : List (String × String)
deriving DecidableEq

/-- recordID (src/utils.go lines 62-64): string(key.Bytes()). -/
def recordID (key : String) : String :=
  key

/-- vectorID (src/destination.go, multicollection revision): same body as
recordID. -/
def vectorID (key : String) : String :=
  key

/-- PineconeSparseValues (src/utils.go lines 76-88, and the method of
pineconeVectorValues in src/unnamed/part_010): the Pinecone go client needs a
nil pointer when no sparse values are given, so both arrays empty yields the
absent sentinel none. -/
def PineconeVectorValues.pineconeSparseValues (r : PineconeVectorValues) : Option SparseValues :=
  if r.sparseValues.indices.length = 0 ∧ r.sparseValues.values.length = 0 then
    none
  else
    some { indices := r.sparseValues.indices, values := r.sparseValues.values }

/-- parsePineconeVectorValues (src/unnamed/part_010 lines 489-502; identical
logic to parseRecordPayload, src/utils.go lines 114-127): empty payload error
when after is nil or zero length, then json.Unmarshal. -/
def parsePineconeVectorValues (rec : Record) : Except Err PineconeVectorValues :=
  match rec.payload.after with
  | none => .error .emptyPayload
  | some .emptyBytes => .error .emptyPayload
  | some .malformed => .error .unmarshalJSON
  | some (.decodes v) => .ok v

/-- parsePineconeMetadata (src/utils.go lines 129-141): copies every metadata
entry into the structpb map; string values never fail conversion, so the
function is total here. -/
def parsePineconeMetadata (rec : Record) : Except Err (List (String × String)) :=
  .ok rec.metadata

/-- parsePineconeVector (src/utils.go lines 90-112 and src/unnamed/part_010
lines 465-487): id from the key, values verbatim, sparse component through the
nil sentinel, metadata copied. -/
def parsePineconeVector (rec : Record) : Except Err Vector :=
  match parsePineconeVectorValues rec with
  | .error e => .error e
  | .ok payload =>
    match parsePineconeMetadata rec with
    | .error e => .error e
    | .ok metadata =>
      .ok { id := recordID rec.key
            values := payload.values
            sparseValues := payload.pineconeSparseValues
            metadata := metadata }

/-- Batches of the legacy builder (src/utils.go lines 143-167): upsertBatch
holds vectors, deleteBatch holds ids; no namespace field in this revision. -/
inductive LegacyBatch
| upsert (vectors : List Vector)
| delete (ids : List String)
deriving DecidableEq

/-- Loop body of the legacy buildBatches (src/utils.go lines 174-212),
with currUpsertBatch, currDeleteBatch and batches threaded explicitly.
isLast is rest.isEmpty, exactly as i == len(records)-1 in the loop. -/
def buildBatchesGo (currUpsert : List Vector) (currDelete : List String)
    (batches : List LegacyBatch) : List Record → Except Err (List LegacyBatch)
  | [] => .ok batches
  | rec :: rest =>
    let isLast := rest.isEmpty
    match rec.operation with
    | .create | .update | .snapshot =>
      match parsePineconeVector rec with
      | .error e => .error e
      | .ok vec =>
        let currUpsert' := currUpsert ++ [vec]
        let batches' := if isLast then batches ++ [.upsert currUpsert'] else batches
        if currDelete.length ≠ 0 then
          buildBatchesGo currUpsert' [] (batches' ++ [.delete currDelete]) rest
        else
          buildBatchesGo currUpsert' currDelete batches' rest
    | .delete =>
      let id := recordID rec.key
      let currDelete' := currDelete ++ [id]
      let batches' := if isLast then batches ++ [.delete currDelete'] else batches
      if currUpsert.length ≠ 0 then
        buildBatchesGo [] currDelete' (batches' ++ [.upsert currUpsert]) rest
      else
        buildBatchesGo currUpsert currDelete' batches' rest

/-- buildBatches (src/utils.go lines 174-212): groups records into upsert and
delete batches in one pass over the record slice. -/
def buildBatches (records : List Record) : Except Err (List LegacyBatch) :=
  buildBatchesGo [] [] [] records

/-- Opaque handle standing for a pinecone.IndexConnection. -/
structure IndexConnection where
  id : Nat
deriving DecidableEq

/-- Responses of the remote Pinecone service and client, one function per
outbound call of the multicollection writer: newIndex, UpsertVectors (which
reports the upserted count) and DeleteVectorsById. -/
structure PineconeEnv where
  newIndex : String → Except Err IndexConnection
  upsertVectors : IndexConnection → List Vector → Except Err Nat
  deleteVectorsById : IndexConnection → List String → Option Err

/-- Lookup in the namespace to connection cache (cmap.Get / cmap.Has). -/
def cmapLookup (m : List (String × IndexConnection)) (k : String) : Option IndexConnection :=
  match m with
  | [] => none
  | (k', v) :: rest => if k' = k then some v else cmapLookup rest k

/-- cmap.Has on the connection cache. -/
def cmapHas (m : List (String × IndexConnection)) (k : String) : Bool :=
  (cmapLookup m k).isSome

/-- Namespaces present in the connection cache. -/
def cmapKeys (m : List (String × IndexConnection)) : List String :=
  m.map Prod.fst

/-- Metadata key read by opencdc Metadata.GetCollection. -/
def opencdcCollectionKey : String :=
  "opencdc.collection"

/-- Metadata.GetCollection: returns the collection entry, or the zero value
together with an error when the key is missing. -/
def getCollection (md : List (String × String)) : String × Option Err :=
  match md.lookup opencdcCollectionKey with
  | some v => (v, none)
  | none => ("", some .missingMetadata)

/-- parseNamespace (src/batches.go, opencdc revision lines 279-291): when a
namespace template is configured its evaluation decides the namespace and an
evaluation failure is an error; otherwise the opencdc.collection metadata
entry is used and a missing entry silently resolves to the empty namespace.
Template evaluation is modeled as a function from the record to an optional
string, none meaning evaluation failure. -/
def parseNamespace (tmpl : Option (Record → Option String)) (record : Record) :
    Except Err String :=
  match tmpl with
  | some t =>
    match t record with
    | none => .error .templateEval
    | some s => .ok s
  | none =>
    (getCollection record.metadata).1 |> .ok

/-- addIndexIfMissing (src/batches.go, opencdc revision lines 293-311): cache
hit returns at once; otherwise a connection is created through the environment
and cached. The second component of the result is the list of namespaces a
connection was created for during this call (it mirrors the connected log
line) and is used only to state theorems. -/
def addIndexIfMissing (env : PineconeEnv) (indexes : List (String × IndexConnection))
    (ns : String) : Except Err (List (String × IndexConnection) × List String) :=
  if cmapHas indexes ns then
    .ok (indexes, [])
  else
    match env.newIndex ns with
    | .error e => .error e
    | .ok index => .ok ((ns, index) :: indexes, [ns])

/-- recordBatch of the multicollection revision (src/batches.go, opencdc
revision lines 193-256): a closed union of upsertBatch (namespace and vectors)
and deleteBatch (namespace and ids). -/
inductive RecordBatch
| upsert (ns : String) (vectors : List Vector)
| delete (ns : String) (ids : List String)
deriving DecidableEq

/-- getNamespace of both batch kinds. -/
def RecordBatch.getNamespace : RecordBatch → String
  | .upsert ns _ => ns
  | .delete ns _ => ns

/-- isOperationCompatible of both batch kinds: an upsert batch accepts create,
update and snapshot records; a delete batch accepts delete records. -/
def RecordBatch.isOperationCompatible (b : RecordBatch) (rec : Record) : Bool :=
  match b with
  | .upsert _ _ =>
    match rec.operation with
    | .create | .update | .snapshot => true
    | .delete => false
  | .delete _ _ =>
    match rec.operation with
    | .delete => true
    | _ => false

/-- addRecord of both batch kinds: an upsert batch parses the record into a
vector and appends it; a delete batch appends the vector id of the key. -/
def RecordBatch.addRecord (b : RecordBatch) (rec : Record) : Except Err RecordBatch :=
  match b with
  | .upsert ns vectors =>
    match parsePineconeVector rec with
    | .error e => .error e
    | .ok vec => .ok (.upsert ns (vectors ++ [vec]))
  | .delete ns ids => .ok (.delete ns (ids ++ [vectorID rec.key]))

/-- Number of elements held by a batch. -/
def RecordBatch.size : RecordBatch → Nat
  | .upsert _ vectors => vectors.length
  | .delete _ ids => ids.length

/-- Operation category of a batch: true for a delete batch. -/
def RecordBatch.isDeleteBatch : RecordBatch → Bool
  | .upsert _ _ => false
  | .delete _ _ => true

/-- Two batches belong to different compatible runs: they differ in namespace
or in operation category. -/
def differentRun (b1 b2 : RecordBatch) : Prop :=
  b1.getNamespace ≠ b2.getNamespace ∨ b1.isDeleteBatch ≠ b2.isDeleteBatch

/-- addNewBatch (src/batches.go, opencdc revision lines 316-331): a delete
record starts a delete batch, any other record starts an upsert batch; the
record is added immediately and the batch is appended only when adding the
record succeeded. -/
def addNewBatch (rec : Record) (ns : String) (batches : List RecordBatch) :
    Except Err (List RecordBatch) :=
  let batch : RecordBatch :=
    match rec.operation with
    | .delete => .delete ns []
    | _ => .upsert ns []
  match batch.addRecord rec with
  | .error e => .error e
  | .ok b => .ok (batches ++ [b])

/-- addToPreviousBatch (src/batches.go, opencdc revision lines 333-344): the
record goes into the last batch when namespaces match and the operation is
compatible, otherwise a new batch is started. The source indexes
batches[len(batches)-1] and is only called with a nonempty slice; the none
branch mirrors the callers guard and is unreachable from the builder loop. -/
def addToPreviousBatch (rec : Record) (ns : String) (batches : List RecordBatch) :
    Except Err (List RecordBatch) :=
  match batches.getLast? with
  | none => addNewBatch rec ns batches
  | some prevBatch =>
    if prevBatch.getNamespace ≠ ns then
      addNewBatch rec ns batches
    else if prevBatch.isOperationCompatible rec then
      match prevBatch.addRecord rec with
      | .error e => .error e
      | .ok updated => .ok (batches.dropLast ++ [updated])
    else
      addNewBatch rec ns batches

/-- One iteration of the batch construction in the builder loop, exactly the
conditional of src/batches.go opencdc revision lines 359-363: an empty batch
list starts a new batch, otherwise the record goes through
addToPreviousBatch. -/
def builderStep (rec : Record) (ns : String) (batches : List RecordBatch) :
    Except Err (List RecordBatch) :=
  if batches.isEmpty then
    addNewBatch rec ns batches
  else
    addToPreviousBatch rec ns batches

/-- Verification instrumentation, not part of the source: the group of source
records (with their resolved namespaces) feeding each batch, updated by the
same branch decisions as addToPreviousBatch so that groups stay parallel to
the batch list. -/
def ghostStep (rec : Record) (ns : String) (batches : List RecordBatch)
    (groups : List (List (Record × String))) : List (List (Record × String)) :=
  match batches.getLast? with
  | none => groups ++ [[(rec, ns)]]
  | some prevBatch =>
    if prevBatch.getNamespace ≠ ns then
      groups ++ [[(rec, ns)]]
    else if prevBatch.isOperationCompatible rec then
      groups.dropLast ++ [(groups.getLast?.getD []) ++ [(rec, ns)]]
    else
      groups ++ [[(rec, ns)]]

/-- Result of multicollectionWriter.buildBatches: the returned batch slice and
error, the connection cache after the call (the writer field indexes), plus
two pieces of instrumentation used only in theorem statements: the namespaces
connections were created for, and the record groups feeding the batches. -/
structure BuildResult where
  batches : List RecordBatch
  err : Option Err
  indexes : List (String × IndexConnection)
  created : List String
  groups : List (List (Record × String))
deriving DecidableEq

/-- Loop body of multicollectionWriter.buildBatches (src/batches.go, opencdc
revision lines 346-367): per record, resolve the namespace, connect to its
index if missing, and add the record to the batch list; any failure returns a
nil batch slice together with the error, while the cache mutations made so far
persist in the writer. -/
def multicollectionBuildBatchesGo (env : PineconeEnv) (tmpl : Option (Record → Option String)) :
    List Record → List RecordBatch → List (String × IndexConnection) → List String →
    List (List (Record × String)) → BuildResult
  | [], batches, indexes, created, groups => ⟨batches, none, indexes, created, groups⟩
  | rec :: rest, batches, indexes, created, groups =>
    match parseNamespace tmpl rec with
    | .error e => ⟨[], some e, indexes, created, groups⟩
    | .ok ns =>
      match addIndexIfMissing env indexes ns with
      | .error e => ⟨[], some e, indexes, created, groups⟩
      | .ok (indexes', cr) =>
        match builderStep rec ns batches with
        | .error e => ⟨[], some e, indexes', created ++ cr, groups⟩
        | .ok batches' =>
          multicollectionBuildBatchesGo env tmpl rest batches' indexes' (created ++ cr)
            (ghostStep rec ns batches groups)

/-- multicollectionWriter.buildBatches (src/batches.go, opencdc revision lines
313-370), starting from the current connection cache of the writer. -/
def multicollectionBuildBatches (env : PineconeEnv) (tmpl : Option (Record → Option String))
    (indexes : List (String × IndexConnection)) (records : List Record) : BuildResult :=
  multicollectionBuildBatchesGo env tmpl records [] indexes [] []

/-- writeBatch of both batch kinds (src/batches.go, opencdc revision lines
222-228 and 249-256): an upsert batch returns the count reported by
UpsertVectors, zero on error; a delete batch returns the length of its id list
on success, zero on error. -/
def writeBatch (env : PineconeEnv) (index : IndexConnection) : RecordBatch → Except Err Nat
  | .upsert _ vectors =>
    match env.upsertVectors index vectors with
    | .error e => .error e
    | .ok written => .ok written
  | .delete _ ids =>
    match env.deleteVectorsById index ids with
    | some e => .error e
    | none => .ok ids.length

/-- Outcome of writing one batch from a given cache: connection looked up in
the cache (a missing entry makes the source panic, modeled as the
indexNotFound error), then writeBatch. -/
def batchOutcome (env : PineconeEnv) (indexes : List (String × IndexConnection))
    (b : RecordBatch) : Except Err Nat :=
  match cmapLookup indexes b.getNamespace with
  | none => .error .indexNotFound
  | some index => writeBatch env index b

/-- Loop of multicollectionWriter.writeRecords over the batch list
(src/batches.go, opencdc revision lines 378-392), accumulating the written
count; the third component is instrumentation recording which batches were
submitted to the store. On a batch error the count of that batch is zero and
the loop returns at once. -/
def writeLoop (env : PineconeEnv) (indexes : List (String × IndexConnection)) :
    List RecordBatch → Nat → List RecordBatch → Nat × Option Err × List RecordBatch
  | [], written, attempted => (written, none, attempted)
  | b :: rest, written, attempted =>
    match cmapLookup indexes b.getNamespace with
    | none => (written, some .indexNotFound, attempted)
    | some index =>
      match writeBatch env index b with
      | .error e => (written, some e, attempted ++ [b])
      | .ok n => writeLoop env indexes rest (written + n) (attempted ++ [b])

/-- Result of multicollectionWriter.writeRecords: written count and error,
cache after the call, plus instrumentation (created namespaces, attempted
batches). -/
structure WriteResult where
  written : Nat
  err : Option Err
  indexes : List (String × IndexConnection)
  created : List String
  attempted : List RecordBatch
deriving DecidableEq

/-- multicollectionWriter.writeRecords (src/batches.go, opencdc revision lines
372-395): build the batches, propagate a build error with a zero count,
otherwise write the batches in order and stop at the first failure. -/
def multicollectionWriteRecords (env : PineconeEnv) (tmpl : Option (Record → Option String))
    (indexes : List (String × IndexConnection)) (records : List Record) : WriteResult :=
  let b := multicollectionBuildBatches env tmpl indexes records
  match b.err with
  | some e => ⟨0, some e, b.indexes, b.created, []⟩
  | none =>
    let w := writeLoop env b.indexes b.batches 0 []
    ⟨w.1, w.2.1, b.indexes, b.created, w.2.2⟩

/-- Correspondence between one batch and the group of records that fed it:
the group is nonempty, every record of the group resolved to the namespace of
the batch, and the contents of the batch are exactly the contributions of the
group in order: parsed vectors of non delete records for an upsert batch, ids
of delete records for a delete batch. -/
def batchMatchesGroup (b : RecordBatch) (g : List (Record × String)) : Prop :=
  g ≠ [] ∧
  (∀ p ∈ g, p.2 = b.getNamespace) ∧
  (match b with
   | .upsert _ vectors =>
     (∀ p ∈ g, (p : Record × String).1.operation ≠ .delete) ∧
     List.Forall₂ (fun (p : Record × String) v => parsePineconeVector p.1 = .ok v) g vectors
   | .delete _ ids =>
     (∀ p ∈ g, (p : Record × String).1.operation = .delete) ∧
     ids = g.map (fun p => vectorID p.1.key))

/-- Concrete decoded payload used by the concrete evaluations: a two element
dense vector with no sparse component. -/
def samplePayload : PineconeVectorValues :=
  ⟨[⟨1⟩, ⟨2⟩], ⟨[], []⟩⟩

/-- Concrete create record with a valid payload and no metadata. -/
def sampleCreate (k : String) : Record :=
  ⟨.create, k, [], ⟨none, some (.decodes samplePayload)⟩⟩

/-- Concrete delete record; delete records carry no payload. -/
def sampleDelete (k : String) : Record :=
  ⟨.delete, k, [], ⟨none, none⟩⟩

/-- Vector produced by parsing sampleCreate. -/
def sampleVector (k : String) : Vector :=
  ⟨k, [⟨1⟩, ⟨2⟩], none, []⟩

/-- Concrete create record whose payload.after is nil. -/
def nilPayloadCreate (k : String) : Record :=
  ⟨.create, k, [], ⟨none, none⟩⟩

/-- Concrete record carrying its namespace in the opencdc.collection metadata
entry, with a valid payload. -/
def nsRecord (op : Operation) (k ns : String) : Record :=
  ⟨op, k, [(opencdcCollectionKey, ns)], ⟨none, some (.decodes samplePayload)⟩⟩

/-- Vector produced by parsing nsRecord. -/
def nsVector (k ns : String) : Vector :=
  ⟨k, [⟨1⟩, ⟨2⟩], none, [(opencdcCollectionKey, ns)]⟩

/-- Environment whose remote calls always succeed: every namespace gets the
connection handle 0, upserts report the vector count, deletes succeed. -/
def envAllOk : PineconeEnv :=
  ⟨fun _ => .ok ⟨0⟩, fun _ vectors => .ok vectors.length, fun _ _ => none⟩

/-- Environment where the connection for namespace b gets handle 1 and every
bulk upsert on handle 1 fails with remote error 7; everything else
succeeds. -/
def envFailsOnB : PineconeEnv :=
  ⟨fun ns => .ok (if ns = "b" then ⟨1⟩ else ⟨0⟩),
   fun index vectors => if index = ⟨1⟩ then .error (.remote 7) else .ok vectors.length,
   fun _ _ => none⟩

/-- Claim C5: for every record whose operation is not Delete and whose
payload.after is nil or zero length, parsing the record into a vector returns
the empty payload error; the parse function reaches an error branch instead of
crashing on the missing payload. -/
theorem c5_empty_payload_error (rec : Record) (_hop : rec.operation ≠ .delete)
    (hafter : rec.payload.after = none ∨ rec.payload.after = some .emptyBytes) :
    parsePineconeVector rec = .error .emptyPayload := by
  rcases hafter with h | h <;>
    simp [parsePineconeVector, parsePineconeVectorValues, h]

/-- Witness for c5_empty_payload_error at a concrete create record with a nil
payload. -/
theorem c5_witness :
    (nilPayloadCreate "k").operation ≠ .delete ∧
    parsePineconeVector (nilPayloadCreate "k") = .error .emptyPayload :=
  ⟨by decide, c5_empty_payload_error (nilPayloadCreate "k") (by decide) (Or.inl rfl)⟩

/-- Claim C6: on a record that parses successfully, both sparse arrays empty
or absent yields the absent sentinel (none) for the sparse component of the
vector, and a nonempty array on either side yields a present sparse component
carrying both arrays verbatim. -/
theorem c6_sparse_sentinel (rec : Record) (v : PineconeVectorValues) (vec : Vector)
    (hafter : rec.payload.after = some (.decodes v))
    (hparse : parsePineconeVector rec = .ok vec) :
    ((v.sparseValues.indices = [] ∧ v.sparseValues.values = []) → vec.sparseValues = none) ∧
    ((v.sparseValues.indices ≠ [] ∨ v.sparseValues.values ≠ []) →
      vec.sparseValues = some ⟨v.sparseValues.indices, v.sparseValues.values⟩) := by
  have hvec : vec.sparseValues = v.pineconeSparseValues := by
    simp only [parsePineconeVector, parsePineconeVectorValues, hafter, parsePineconeMetadata,
      Except.ok.injEq] at hparse
    rw [← hparse]
  constructor
  · rintro ⟨h1, h2⟩
    rw [hvec]
    simp [PineconeVectorValues.pineconeSparseValues, h1, h2]
  · intro h
    rw [hvec]
    simp only [PineconeVectorValues.pineconeSparseValues]
    rw [if_neg]
    rintro ⟨hl1, hl2⟩
    rcases h with h | h
    · exact h (List.length_eq_zero.mp hl1)
    · exact h (List.length_eq_zero.mp hl2)

/-- Witness for c6_sparse_sentinel at a concrete record whose decoded payload
has both sparse arrays empty: the parsed vector carries the absent
sentinel. -/
theorem c6_witness :
    parsePineconeVector (sampleCreate "k") = .ok (sampleVector "k") ∧
    (sampleVector "k").sparseValues = none :=
  ⟨by decide,
   (c6_sparse_sentinel (sampleCreate "k") samplePayload (sampleVector "k") rfl
     (by decide)).1 ⟨rfl, rfl⟩⟩

/-- Claim C1 (evaluation at the failing input): the legacy buildBatches of
src/utils.go does not preserve arrival order. For a create record followed by
a delete record the returned batch list holds the delete batch first, so
replaying the batches applies the later delete before the earlier upsert. -/
theorem c1_legacy_buildBatches_reorders :
    buildBatches [sampleCreate "k1", sampleDelete "k2"] =
      .ok [.delete ["k2"], .upsert [sampleVector "k1"]] := by
  decide

/-- Claim C7 (evaluation at the failing input): the legacy buildBatches of
src/utils.go can emit two adjacent batches of the same kind (and trivially the
same namespace, since this revision has a single namespace): batches zero and
one of this run are both upsert batches, so maximal compatible runs are
split. -/
theorem c7_legacy_adjacent_same_kind :
    buildBatches [sampleCreate "k1", sampleDelete "k2", sampleCreate "k3"] =
      .ok [.upsert [sampleVector "k1"], .upsert [sampleVector "k3"], .delete ["k2"]] := by
  decide

/-- Any error exit of the builder loop returns a nil batch slice. -/
theorem buildBatchesGo_err_nil (env : PineconeEnv) (tmpl : Option (Record → Option String)) :
    ∀ (records : List Record) batches indexes created groups e,
    (multicollectionBuildBatchesGo env tmpl records batches indexes created groups).err = some e →
    (multicollectionBuildBatchesGo env tmpl records batches indexes created groups).batches = [] := by
  intro records
  induction records with
  | nil =>
    intro batches indexes created groups e h
    simp [multicollectionBuildBatchesGo] at h
  | cons rec rest ih =>
    intro batches indexes created groups e h
    rw [multicollectionBuildBatchesGo] at h ⊢
    cases h1 : parseNamespace tmpl rec with
    | error e1 => simp [h1]
    | ok ns =>
      simp only [h1] at h ⊢
      cases h2 : addIndexIfMissing env indexes ns with
      | error e2 => simp [h2]
      | ok p =>
        obtain ⟨indexes', cr⟩ := p
        simp only [h2] at h ⊢
        cases h3 : builderStep rec ns batches with
        | error e3 => simp [h3]
        | ok batches' =>
          simp only [h3] at h ⊢
          exact ih batches' indexes' (created ++ cr) (ghostStep rec ns batches groups) e h

/-- Claim C4 (counterexample to the claim as stated): on an input whose first
record builds a batch and whose second record fails to parse,
multicollectionWriter.buildBatches returns the error together with a nil batch
slice: the partial batch appended for the first record does not remain in the
returned slice. The first conjunct shows the batch that had been appended
before the failure. -/
theorem c4_counterexample :
    builderStep (sampleCreate "k1") "" [] = .ok [.upsert "" [sampleVector "k1"]] ∧
    (multicollectionBuildBatches envAllOk none []
      [sampleCreate "k1", nilPayloadCreate "k2"]).err = some .emptyPayload ∧
    (multicollectionBuildBatches envAllOk none []
      [sampleCreate "k1", nilPayloadCreate "k2"]).batches = [] := by
  exact ⟨by decide, by decide, by decide⟩

/-- Claim C4 (amended): when record parsing fails during batch construction,
multicollectionWriter.buildBatches returns the error and an empty (nil) batch
slice; no partial batches remain. In particular a first record with operation
Create and nil payload.after yields the empty payload error and zero
batches. -/
theorem c4_error_returns_no_batches (env : PineconeEnv) (tmpl : Option (Record → Option String))
    (indexes : List (String × IndexConnection)) (records : List Record) (e : Err)
    (h : (multicollectionBuildBatches env tmpl indexes records).err = some e) :
    (multicollectionBuildBatches env tmpl indexes records).batches = [] :=
  buildBatchesGo_err_nil env tmpl records [] indexes [] [] e h

/-- Witness for c4_error_returns_no_batches at the scenario of the claim: a
single create record with nil payload.after gives the empty payload error and
zero batches. -/
theorem c4_witness :
    (multicollectionBuildBatches envAllOk none [] [nilPayloadCreate "k"]).err =
      some .emptyPayload ∧
    (multicollectionBuildBatches envAllOk none [] [nilPayloadCreate "k"]).batches = [] :=
  ⟨by decide,
   c4_error_returns_no_batches envAllOk none [] [nilPayloadCreate "k"] .emptyPayload (by decide)⟩

/-- Cache lookup succeeds exactly for the namespaces among the cache keys. -/
theorem cmapLookup_isSome (m : List (String × IndexConnection)) (k : String) :
    (cmapLookup m k).isSome = true ↔ k ∈ cmapKeys m := by
  induction m with
  | nil => simp [cmapLookup, cmapKeys]
  | cons p rest ih =>
    obtain ⟨k', v⟩ := p
    by_cases h : k' = k
    · subst h
      simp [cmapLookup, cmapKeys]
    · simp only [cmapLookup, if_neg h, cmapKeys, List.map_cons, List.mem_cons]
      rw [show cmapKeys rest = rest.map Prod.fst from rfl] at ih
      rw [ih]
      constructor
      · exact Or.inr
      · rintro (h' | h')
        · exact absurd h'.symm h
        · exact h'

/-- Cache bookkeeping invariant relative to the initial cache keys: the
created list is duplicate free and disjoint from the initial keys, and the
current cache keys are exactly the created namespaces (most recent first) in
front of the initial keys. -/
def cacheInv (keys0 : List String) (created : List String)
    (indexes : List (String × IndexConnection)) : Prop :=
  created.Nodup ∧ (∀ n ∈ created, n ∉ keys0) ∧ cmapKeys indexes = created.reverse ++ keys0

/-- addIndexIfMissing preserves the cache bookkeeping invariant. -/
theorem addIndexIfMissing_inv (env : PineconeEnv) (keys0 created : List String)
    (indexes : List (String × IndexConnection)) (ns : String)
    (indexes' : List (String × IndexConnection)) (cr : List String)
    (hinv : cacheInv keys0 created indexes)
    (h : addIndexIfMissing env indexes ns = .ok (indexes', cr)) :
    cacheInv keys0 (created ++ cr) indexes' := by
  unfold addIndexIfMissing at h
  split at h
  case isTrue hhas =>
    cases h
    simpa using hinv
  case isFalse hhas =>
    obtain ⟨hnd, hdisj, hkeys⟩ := hinv
    have hnotmem : ns ∉ cmapKeys indexes := by
      intro hmem
      exact hhas ((cmapLookup_isSome indexes ns).mpr hmem)
    rw [hkeys] at hnotmem
    have hns_created : ns ∉ created := by
      intro hc
      exact hnotmem (List.mem_append.mpr (Or.inl (List.mem_reverse.mpr hc)))
    have hns_keys0 : ns ∉ keys0 := fun hc => hnotmem (List.mem_append.mpr (Or.inr hc))
    cases h2 : env.newIndex ns with
    | error e2 => rw [h2] at h; cases h
    | ok index =>
      rw [h2] at h
      cases h
      refine ⟨?_, ?_, ?_⟩
      · rw [List.nodup_append]
        refine ⟨hnd, List.nodup_singleton ns, ?_⟩
        intro a ha hb
        rw [List.mem_singleton] at hb
        subst hb
        exact hns_created ha
      · intro n hn
        rcases List.mem_append.mp hn with hn | hn
        · exact hdisj n hn
        · rw [List.mem_singleton] at hn
          subst hn
          exact hns_keys0
      · simp only [cmapKeys, List.map_cons]
        rw [show cmapKeys indexes = indexes.map Prod.fst from rfl] at hkeys
        rw [hkeys, List.reverse_append, List.reverse_singleton]
        rfl

/-- The builder loop preserves the cache bookkeeping invariant. -/
theorem buildBatchesGo_cacheInv (env : PineconeEnv) (tmpl : Option (Record → Option String)) :
    ∀ (records : List Record) batches indexes created groups keys0,
    cacheInv keys0 created indexes →
    cacheInv keys0
      (multicollectionBuildBatchesGo env tmpl records batches indexes created groups).created
      (multicollectionBuildBatchesGo env tmpl records batches indexes created groups).indexes := by
  intro records
  induction records with
  | nil =>
    intro batches indexes created groups keys0 hinv
    simpa [multicollectionBuildBatchesGo] using hinv
  | cons rec rest ih =>
    intro batches indexes created groups keys0 hinv
    rw [multicollectionBuildBatchesGo]
    cases h1 : parseNamespace tmpl rec with
    | error e1 => exact hinv
    | ok ns =>
      dsimp only
      cases h2 : addIndexIfMissing env indexes ns with
      | error e2 => exact hinv
      | ok p =>
        obtain ⟨indexes', cr⟩ := p
        dsimp only
        have hinv' := addIndexIfMissing_inv env keys0 created indexes ns indexes' cr hinv h2
        cases h3 : builderStep rec ns batches with
        | error e3 => exact hinv'
        | ok batches' =>
          dsimp only
          exact ih batches' indexes' (created ++ cr) (ghostStep rec ns batches groups) keys0 hinv'

/-- Claim C9: over a call of multicollectionWriter.buildBatches from any cache
state, each namespace gets at most one connection created (the created trace
is duplicate free), no connection is created for a namespace that is already
cached, and afterwards the cache holds exactly the old entries plus one new
entry per created namespace, so later records and batches of the same
namespace reuse the cached handle. -/
theorem c9_connect_once (env : PineconeEnv) (tmpl : Option (Record → Option String))
    (indexes : List (String × IndexConnection)) (records : List Record) :
    (multicollectionBuildBatches env tmpl indexes records).created.Nodup ∧
    (∀ n ∈ (multicollectionBuildBatches env tmpl indexes records).created,
      cmapHas indexes n = false) ∧
    cmapKeys (multicollectionBuildBatches env tmpl indexes records).indexes =
      (multicollectionBuildBatches env tmpl indexes records).created.reverse ++
        cmapKeys indexes := by
  have hinv : cacheInv (cmapKeys indexes) [] indexes :=
    ⟨List.nodup_nil, by simp, by simp⟩
  have h := buildBatchesGo_cacheInv env tmpl records [] indexes [] [] (cmapKeys indexes) hinv
  obtain ⟨h1, h2, h3⟩ := h
  refine ⟨h1, ?_, h3⟩
  intro n hn
  have hnot := h2 n hn
  rw [Bool.eq_false_iff]
  intro htrue
  exact hnot ((cmapLookup_isSome indexes n).mp htrue)

/-- Adding a cache entry preserves every cache hit. -/
theorem cmapHas_cons (p : String × IndexConnection) (m : List (String × IndexConnection))
    (k : String) (h : cmapHas m k = true) : cmapHas (p :: m) k = true := by
  obtain ⟨k', v⟩ := p
  unfold cmapHas at h
  unfold cmapHas cmapLookup
  split
  · rfl
  · exact h

/-- A successful addIndexIfMissing leaves the requested namespace cached and
keeps every previous cache hit. -/
theorem addIndexIfMissing_has (env : PineconeEnv) (indexes : List (String × IndexConnection))
    (ns : String) (indexes' : List (String × IndexConnection)) (cr : List String)
    (h : addIndexIfMissing env indexes ns = .ok (indexes', cr)) :
    cmapHas indexes' ns = true ∧ ∀ k, cmapHas indexes k = true → cmapHas indexes' k = true := by
  unfold addIndexIfMissing at h
  split at h
  case isTrue hhas =>
    cases h
    exact ⟨hhas, fun k hk => hk⟩
  case isFalse hhas =>
    cases h2 : env.newIndex ns with
    | error e2 =>
      rw [h2] at h
      cases h
    | ok index =>
      rw [h2] at h
      cases h
      constructor
      · unfold cmapHas cmapLookup
        rw [if_pos rfl]
        rfl
      · intro k hk
        exact cmapHas_cons (ns, index) indexes k hk

/-- Through the builder loop the cache only grows, and on a successful run the
namespace of every processed record is cached at the end. -/
theorem buildBatchesGo_covers (env : PineconeEnv) (tmpl : Option (Record → Option String)) :
    ∀ (records : List Record) batches indexes created groups,
    (∀ k, cmapHas indexes k = true →
      cmapHas (multicollectionBuildBatchesGo env tmpl records batches indexes created
        groups).indexes k = true) ∧
    ((multicollectionBuildBatchesGo env tmpl records batches indexes created groups).err = none →
      ∀ rec ∈ records, ∀ ns, parseNamespace tmpl rec = .ok ns →
        cmapHas (multicollectionBuildBatchesGo env tmpl records batches indexes created
          groups).indexes ns = true) := by
  intro records
  induction records with
  | nil =>
    intro batches indexes created groups
    constructor
    · intro k hk
      simpa [multicollectionBuildBatchesGo] using hk
    · intro _ rec hrec
      cases hrec
  | cons rec rest ih =>
    intro batches indexes created groups
    rw [multicollectionBuildBatchesGo]
    cases h1 : parseNamespace tmpl rec with
    | error e1 =>
      dsimp only
      constructor
      · intro k hk
        exact hk
      · intro hnone
        cases hnone
    | ok ns =>
      dsimp only
      cases h2 : addIndexIfMissing env indexes ns with
      | error e2 =>
        dsimp only
        constructor
        · intro k hk
          exact hk
        · intro hnone
          cases hnone
      | ok p =>
        obtain ⟨indexes', cr⟩ := p
        dsimp only
        obtain ⟨hns, hmono2⟩ := addIndexIfMissing_has env indexes ns indexes' cr h2
        cases h3 : builderStep rec ns batches with
        | error e3 =>
          dsimp only
          constructor
          · intro k hk
            exact hmono2 k hk
          · intro hnone
            cases hnone
        | ok batches' =>
          dsimp only
          obtain ⟨ihmono, ihcover⟩ :=
            ih batches' indexes' (created ++ cr) (ghostStep rec ns batches groups)
          constructor
          · intro k hk
            exact ihmono k (hmono2 k hk)
          · intro hnone rec' hrec' ns' hns'
            rcases List.mem_cons.mp hrec' with hrec' | hrec'
            · subst hrec'
              rw [h1] at hns'
              injection hns' with hns'
              subst hns'
              exact ihmono ns hns
            · exact ihcover hnone rec' hrec' ns' hns'

/-- When every namespace of the record list is already cached, the builder
loop neither touches the cache nor creates connections and produces the same
batch list as a successful run from any other cache state. -/
theorem buildBatchesGo_cached (env : PineconeEnv) (tmpl : Option (Record → Option String)) :
    ∀ (records : List Record) batches groups indexes created indexes₂ created₂,
    (multicollectionBuildBatchesGo env tmpl records batches indexes created groups).err = none →
    (∀ rec ∈ records, ∀ ns, parseNamespace tmpl rec = .ok ns → cmapHas indexes₂ ns = true) →
    multicollectionBuildBatchesGo env tmpl records batches indexes₂ created₂ groups =
      { batches := (multicollectionBuildBatchesGo env tmpl records batches indexes created
          groups).batches,
        err := none, indexes := indexes₂, created := created₂,
        groups := (multicollectionBuildBatchesGo env tmpl records batches indexes created
          groups).groups } := by
  intro records
  induction records with
  | nil =>
    intro batches groups indexes created indexes₂ created₂ hnone hcov
    simp [multicollectionBuildBatchesGo]
  | cons rec rest ih =>
    intro batches groups indexes created indexes₂ created₂ hnone hcov
    rw [multicollectionBuildBatchesGo] at hnone
    cases h1 : parseNamespace tmpl rec with
    | error e1 =>
      simp [h1] at hnone
    | ok ns =>
      simp only [h1] at hnone
      cases h2 : addIndexIfMissing env indexes ns with
      | error e2 =>
        simp [h2] at hnone
      | ok p =>
        obtain ⟨indexes', cr⟩ := p
        simp only [h2] at hnone
        cases h3 : builderStep rec ns batches with
        | error e3 =>
          simp [h3] at hnone
        | ok batches' =>
          simp only [h3] at hnone
          have h2' : addIndexIfMissing env indexes₂ ns = .ok (indexes₂, []) := by
            unfold addIndexIfMissing
            rw [if_pos (hcov rec (List.mem_cons_self rec rest) ns h1)]
          have hred1 : multicollectionBuildBatchesGo env tmpl (rec :: rest) batches indexes
              created groups = multicollectionBuildBatchesGo env tmpl rest batches' indexes'
              (created ++ cr) (ghostStep rec ns batches groups) := by
            rw [multicollectionBuildBatchesGo, h1]
            dsimp only
            rw [h2]
            dsimp only
            rw [h3]
          have hred2 : multicollectionBuildBatchesGo env tmpl (rec :: rest) batches indexes₂
              created₂ groups = multicollectionBuildBatchesGo env tmpl rest batches' indexes₂
              (created₂ ++ []) (ghostStep rec ns batches groups) := by
            rw [multicollectionBuildBatchesGo, h1]
            dsimp only
            rw [h2']
            dsimp only
            rw [h3]
          rw [hred1, hred2, List.append_nil]
          exact ih batches' (ghostStep rec ns batches groups) indexes' (created ++ cr)
            indexes₂ created₂ hnone
            (fun rec' hrec' => hcov rec' (List.mem_cons_of_mem rec hrec'))

/-- Claim C8: rerunning multicollectionWriter.buildBatches on the same record
list from the cache state accumulated by a successful first run yields the
identical batch sequence (and the identical record grouping), creates no
connection, and leaves the cache unchanged. -/
theorem c8_rebatch_stable (env : PineconeEnv) (tmpl : Option (Record → Option String))
    (indexes : List (String × IndexConnection)) (records : List Record)
    (h : (multicollectionBuildBatches env tmpl indexes records).err = none) :
    multicollectionBuildBatches env tmpl
        (multicollectionBuildBatches env tmpl indexes records).indexes records =
      { batches := (multicollectionBuildBatches env tmpl indexes records).batches,
        err := none,
        indexes := (multicollectionBuildBatches env tmpl indexes records).indexes,
        created := [],
        groups := (multicollectionBuildBatches env tmpl indexes records).groups } := by
  have hcov := (buildBatchesGo_covers env tmpl records [] indexes [] []).2 h
  exact buildBatchesGo_cached env tmpl records [] [] indexes []
    (multicollectionBuildBatches env tmpl indexes records).indexes [] h hcov

/-- Witness for c8_rebatch_stable at a concrete record list and environment. -/
theorem c8_witness :
    multicollectionBuildBatches envAllOk none
        (multicollectionBuildBatches envAllOk none [] [sampleCreate "k1"]).indexes
        [sampleCreate "k1"] =
      { batches := (multicollectionBuildBatches envAllOk none [] [sampleCreate "k1"]).batches,
        err := none,
        indexes := (multicollectionBuildBatches envAllOk none [] [sampleCreate "k1"]).indexes,
        created := [],
        groups := (multicollectionBuildBatches envAllOk none [] [sampleCreate "k1"]).groups } :=
  c8_rebatch_stable envAllOk none [] [sampleCreate "k1"] (by decide)

/-- Decomposition of a pointwise relation on a list ending in one element. -/
theorem forall2_concat_left {α β : Type} {R : α → β → Prop} {l₁ : List α} {a : α} {l₂ : List β}
    (h : List.Forall₂ R (l₁ ++ [a]) l₂) :
    ∃ l₂' b, l₂ = l₂' ++ [b] ∧ List.Forall₂ R l₁ l₂' ∧ R a b := by
  induction l₁ generalizing l₂ with
  | nil =>
    rw [List.nil_append] at h
    cases h with
    | cons hab htail =>
      cases htail
      exact ⟨[], _, rfl, List.Forall₂.nil, hab⟩
  | cons x xs ih =>
    rw [List.cons_append] at h
    cases h with
    | cons hxy htail =>
      obtain ⟨l₂', b, rfl, hf, hab⟩ := ih htail
      exact ⟨_ :: l₂', b, rfl, List.Forall₂.cons hxy hf, hab⟩

/-- A pointwise relation extends along one appended pair. -/
theorem forall2_append_single {α β : Type} {R : α → β → Prop} {l₁ : List α} {l₂ : List β}
    (h : List.Forall₂ R l₁ l₂) {a : α} {b : β} (hab : R a b) :
    List.Forall₂ R (l₁ ++ [a]) (l₂ ++ [b]) := by
  induction h with
  | nil => exact List.Forall₂.cons hab List.Forall₂.nil
  | cons hxy htail ih => exact List.Forall₂.cons hxy ih

/-- Every member of the left list of a pointwise relation has a related
member on the right. -/
theorem forall2_mem_left {α β : Type} {R : α → β → Prop} :
    ∀ {l₁ : List α} {l₂ : List β}, List.Forall₂ R l₁ l₂ → ∀ {a : α}, a ∈ l₁ → ∃ b, R a b := by
  intro l₁ l₂ h
  induction h with
  | nil =>
    intro a ha
    cases ha
  | cons hxy htail ih =>
    intro a ha
    rcases List.mem_cons.mp ha with ha | ha
    · subst ha
      exact ⟨_, hxy⟩
    · exact ih ha

/-- A batch matching a record group is nonempty. -/
theorem size_pos_of_matches (b : RecordBatch) (g : List (Record × String))
    (h : batchMatchesGroup b g) : 0 < b.size := by
  obtain ⟨hne, _, hmatch⟩ := h
  have hglen : 0 < g.length := List.length_pos.mpr hne
  cases b with
  | upsert ns vectors =>
    obtain ⟨_, hf⟩ := hmatch
    have hlen := List.Forall₂.length_eq hf
    simpa [RecordBatch.size, ← hlen] using hglen
  | delete ns ids =>
    obtain ⟨_, hids⟩ := hmatch
    simp [RecordBatch.size, hids, hglen]

/-- A successful addNewBatch appends one batch that matches the singleton
group of the added record. -/
theorem addNewBatch_ok (rec : Record) (ns : String) (batches batches' : List RecordBatch)
    (h : addNewBatch rec ns batches = .ok batches') :
    ∃ b, batches' = batches ++ [b] ∧ batchMatchesGroup b [(rec, ns)] := by
  unfold addNewBatch at h
  cases hop : rec.operation with
  | delete =>
    rw [hop] at h
    dsimp only [RecordBatch.addRecord] at h
    cases h
    refine ⟨_, rfl, ?_⟩
    simp [batchMatchesGroup, RecordBatch.getNamespace, hop]
  | create =>
    rw [hop] at h
    dsimp only [RecordBatch.addRecord] at h
    cases hp : parsePineconeVector rec with
    | error e => rw [hp] at h; cases h
    | ok vec =>
      rw [hp] at h
      cases h
      refine ⟨_, rfl, ?_⟩
      simp [batchMatchesGroup, RecordBatch.getNamespace, hop, hp]
  | update =>
    rw [hop] at h
    dsimp only [RecordBatch.addRecord] at h
    cases hp : parsePineconeVector rec with
    | error e => rw [hp] at h; cases h
    | ok vec =>
      rw [hp] at h
      cases h
      refine ⟨_, rfl, ?_⟩
      simp [batchMatchesGroup, RecordBatch.getNamespace, hop, hp]
  | snapshot =>
    rw [hop] at h
    dsimp only [RecordBatch.addRecord] at h
    cases hp : parsePineconeVector rec with
    | error e => rw [hp] at h; cases h
    | ok vec =>
      rw [hp] at h
      cases h
      refine ⟨_, rfl, ?_⟩
      simp [batchMatchesGroup, RecordBatch.getNamespace, hop, hp]

/-- Adding a compatible record of the same namespace to a matching batch keeps
the batch matching its group extended by the record. -/
theorem addRecord_matches (b : RecordBatch) (g : List (Record × String)) (rec : Record)
    (ns : String) (b' : RecordBatch) (hR : batchMatchesGroup b g)
    (hns : b.getNamespace = ns) (hcompat : b.isOperationCompatible rec = true)
    (h : b.addRecord rec = .ok b') :
    batchMatchesGroup b' (g ++ [(rec, ns)]) := by
  obtain ⟨hne, hnsall, hmatch⟩ := hR
  cases b with
  | upsert ns0 vectors =>
    obtain ⟨hops, hf⟩ := hmatch
    have hopne : rec.operation ≠ .delete := by
      intro hdel
      rw [RecordBatch.isOperationCompatible, hdel] at hcompat
      cases hcompat
    dsimp only [RecordBatch.addRecord] at h
    cases hp : parsePineconeVector rec with
    | error e => rw [hp] at h; cases h
    | ok vec =>
      rw [hp] at h
      cases h
      refine ⟨by simp, ?_, ?_, ?_⟩
      · intro p hp'
        rcases List.mem_append.mp hp' with hp' | hp'
        · exact hnsall p hp'
        · rw [List.mem_singleton] at hp'
          subst hp'
          rw [RecordBatch.getNamespace] at hns ⊢
          exact hns.symm
      · intro p hp'
        rcases List.mem_append.mp hp' with hp' | hp'
        · exact hops p hp'
        · rw [List.mem_singleton] at hp'
          subst hp'
          exact hopne
      · exact forall2_append_single hf hp
  | delete ns0 ids =>
    obtain ⟨hops, hids⟩ := hmatch
    have hopdel : rec.operation = .delete := by
      rw [RecordBatch.isOperationCompatible] at hcompat
      cases hop : rec.operation <;> rw [hop] at hcompat <;> first | rfl | cases hcompat
    dsimp only [RecordBatch.addRecord] at h
    cases h
    refine ⟨by simp, ?_, ?_, ?_⟩
    · intro p hp'
      rcases List.mem_append.mp hp' with hp' | hp'
      · exact hnsall p hp'
      · rw [List.mem_singleton] at hp'
        subst hp'
        rw [RecordBatch.getNamespace] at hns ⊢
        exact hns.symm
    · intro p hp'
      rcases List.mem_append.mp hp' with hp' | hp'
      · exact hops p hp'
      · rw [List.mem_singleton] at hp'
        subst hp'
        exact hopdel
    · rw [hids, List.map_append]
      rfl

/-- One builder iteration keeps the batch list pointwise matching the record
groups maintained by ghostStep. -/
theorem builderStep_matches (rec : Record) (ns : String) (batches : List RecordBatch)
    (groups : List (List (Record × String))) (batches' : List RecordBatch)
    (hR : List.Forall₂ batchMatchesGroup batches groups)
    (h : builderStep rec ns batches = .ok batches') :
    List.Forall₂ batchMatchesGroup batches' (ghostStep rec ns batches groups) := by
  unfold builderStep at h
  rcases List.eq_nil_or_concat batches with hb | ⟨bs₀, b, hb⟩
  · subst hb
    cases hR
    have h' : addNewBatch rec ns [] = .ok batches' := by simpa using h
    obtain ⟨nb, hbs', hnb⟩ := addNewBatch_ok rec ns [] batches' h'
    subst hbs'
    rw [ghostStep]
    exact List.Forall₂.cons hnb List.Forall₂.nil
  · rw [List.concat_eq_append] at hb
    subst hb
    rw [if_neg (by simp)] at h
    obtain ⟨gs₀, g, hgs, hf₀, hbg⟩ := forall2_concat_left hR
    subst hgs
    have hlast : (bs₀ ++ [b]).getLast? = some b := List.getLast?_concat bs₀
    have hglast : (gs₀ ++ [g]).getLast? = some g := List.getLast?_concat gs₀
    rw [addToPreviousBatch, hlast] at h
    rw [ghostStep, hlast]
    dsimp only at h ⊢
    by_cases hns : b.getNamespace ≠ ns
    · rw [if_pos hns] at h
      rw [if_pos hns]
      obtain ⟨nb, hbs', hnb⟩ := addNewBatch_ok rec ns (bs₀ ++ [b]) batches' h
      subst hbs'
      exact forall2_append_single hR hnb
    · rw [if_neg hns] at h
      rw [if_neg hns]
      have hnseq : b.getNamespace = ns := not_not.mp hns
      by_cases hcompat : b.isOperationCompatible rec = true
      · rw [if_pos hcompat] at h
        rw [if_pos hcompat]
        cases hadd : b.addRecord rec with
        | error e => rw [hadd] at h; cases h
        | ok b' =>
          rw [hadd] at h
          cases h
          rw [List.dropLast_concat, List.dropLast_concat, hglast]
          have hb'g := addRecord_matches b g rec ns b' hbg hnseq hcompat hadd
          exact forall2_append_single hf₀ hb'g
      · rw [if_neg hcompat] at h
        rw [if_neg hcompat]
        obtain ⟨nb, hbs', hnb⟩ := addNewBatch_ok rec ns (bs₀ ++ [b]) batches' h
        subst hbs'
        exact forall2_append_single hR hnb

/-- On a successful run the builder loop produces batches pointwise matching
the record groups. -/
theorem buildBatchesGo_matches (env : PineconeEnv) (tmpl : Option (Record → Option String)) :
    ∀ (records : List Record) batches indexes created groups,
    (multicollectionBuildBatchesGo env tmpl records batches indexes created groups).err = none →
    List.Forall₂ batchMatchesGroup batches groups →
    List.Forall₂ batchMatchesGroup
      (multicollectionBuildBatchesGo env tmpl records batches indexes created groups).batches
      (multicollectionBuildBatchesGo env tmpl records batches indexes created groups).groups := by
  intro records
  induction records with
  | nil =>
    intro batches indexes created groups hnone hR
    simpa [multicollectionBuildBatchesGo] using hR
  | cons rec rest ih =>
    intro batches indexes created groups hnone hR
    rw [multicollectionBuildBatchesGo] at hnone ⊢
    cases h1 : parseNamespace tmpl rec with
    | error e1 =>
      simp [h1] at hnone
    | ok ns =>
      simp only [h1] at hnone
      dsimp only
      cases h2 : addIndexIfMissing env indexes ns with
      | error e2 =>
        simp [h2] at hnone
      | ok p =>
        obtain ⟨indexes', cr⟩ := p
        simp only [h2] at hnone
        dsimp only
        cases h3 : builderStep rec ns batches with
        | error e3 =>
          simp [h3] at hnone
        | ok batches' =>
          simp only [h3] at hnone
          dsimp only
          exact ih batches' indexes' (created ++ cr) (ghostStep rec ns batches groups) hnone
            (builderStep_matches rec ns batches groups batches' hR h3)

/-- Claim C3: on an input where multicollectionWriter.buildBatches succeeds,
the returned batches correspond one to one, in order, to nonempty groups of
input records such that every record of a group resolved to the namespace of
its batch, delete batches hold exactly the ids of delete records, and upsert
batches hold exactly the parsed vectors of create, update and snapshot
records; moreover every returned batch is nonempty. -/
theorem c3_batches_homogeneous (env : PineconeEnv) (tmpl : Option (Record → Option String))
    (indexes : List (String × IndexConnection)) (records : List Record)
    (h : (multicollectionBuildBatches env tmpl indexes records).err = none) :
    List.Forall₂ batchMatchesGroup
      (multicollectionBuildBatches env tmpl indexes records).batches
      (multicollectionBuildBatches env tmpl indexes records).groups ∧
    ∀ b ∈ (multicollectionBuildBatches env tmpl indexes records).batches, 0 < b.size := by
  have hf := buildBatchesGo_matches env tmpl records [] indexes [] [] h List.Forall₂.nil
  refine ⟨hf, ?_⟩
  intro b hb
  obtain ⟨g, hR⟩ := forall2_mem_left hf hb
  exact size_pos_of_matches b g hR

/-- Witness for c3_batches_homogeneous at a concrete mixed record list. -/
theorem c3_witness :
    List.Forall₂ batchMatchesGroup
      (multicollectionBuildBatches envAllOk none []
        [sampleCreate "k1", sampleDelete "k2"]).batches
      (multicollectionBuildBatches envAllOk none []
        [sampleCreate "k1", sampleDelete "k2"]).groups ∧
    ∀ b ∈ (multicollectionBuildBatches envAllOk none []
      [sampleCreate "k1", sampleDelete "k2"]).batches, 0 < b.size :=
  c3_batches_homogeneous envAllOk none [] [sampleCreate "k1", sampleDelete "k2"] (by decide)

/-- The write loop over batches that all succeed adds the reported counts and
attempts every batch. -/
theorem writeLoop_ok (env : PineconeEnv) (indexes : List (String × IndexConnection)) :
    ∀ (bs : List RecordBatch) (counts : List Nat) (written : Nat)
      (attempted : List RecordBatch),
    List.Forall₂ (fun b n => batchOutcome env indexes b = .ok n) bs counts →
    writeLoop env indexes bs written attempted =
      (written + counts.sum, none, attempted ++ bs) := by
  intro bs counts written attempted h
  induction h generalizing written attempted with
  | nil => simp [writeLoop]
  | @cons b n rest tail hbn htail ih =>
    cases hl : cmapLookup indexes b.getNamespace with
    | none =>
      rw [batchOutcome, hl] at hbn
      cases hbn
    | some index =>
      rw [batchOutcome, hl] at hbn
      dsimp only at hbn
      rw [writeLoop, hl]
      dsimp only
      rw [hbn]
      dsimp only
      have := ih (written + n) (attempted ++ [b])
      rw [this]
      simp [Nat.add_assoc]

/-- The write loop stops at the first failing batch: the batches before it
contribute their counts, the failing batch is attempted and contributes
nothing, and no later batch is attempted. -/
theorem writeLoop_failFast (env : PineconeEnv) (indexes : List (String × IndexConnection)) :
    ∀ (good : List RecordBatch) (counts : List Nat) (written : Nat)
      (attempted : List RecordBatch) (bad : RecordBatch) (rest : List RecordBatch)
      (index : IndexConnection) (e : Err),
    List.Forall₂ (fun b n => batchOutcome env indexes b = .ok n) good counts →
    cmapLookup indexes bad.getNamespace = some index →
    writeBatch env index bad = .error e →
    writeLoop env indexes (good ++ bad :: rest) written attempted =
      (written + counts.sum, some e, attempted ++ (good ++ [bad])) := by
  intro good counts written attempted bad rest index e hgood hlook hfail
  induction hgood generalizing written attempted with
  | nil =>
    rw [List.nil_append, writeLoop, hlook]
    dsimp only
    rw [hfail]
    simp
  | @cons b n goodRest tail hbn htail ih =>
    cases hl : cmapLookup indexes b.getNamespace with
    | none =>
      rw [batchOutcome, hl] at hbn
      cases hbn
    | some bindex =>
      rw [batchOutcome, hl] at hbn
      dsimp only at hbn
      rw [List.cons_append, writeLoop, hl]
      dsimp only
      rw [hbn]
      dsimp only
      have := ih (written + n) (attempted ++ [b])
      rw [this]
      simp [Nat.add_assoc]

/-- Claim C2: multicollectionWriter.writeRecords is fail fast with an exact
low water mark. First conjunct: when the batch list splits into a prefix of
batches whose bulk calls succeed with given counts and a next batch whose bulk
call fails, the call returns the sum of the counts of the fully completed
batches together with the error, and exactly the prefix plus the failing batch
were submitted: no later batch is attempted, whatever its namespace. Second
conjunct: on a fully successful call the written count is the sum of all per
batch counts and every batch is submitted in order. -/
theorem c2_writeRecords_failfast_counts :
    (∀ (env : PineconeEnv) (tmpl : Option (Record → Option String))
       (indexes : List (String × IndexConnection)) (records : List Record)
       (good : List RecordBatch) (bad : RecordBatch) (rest : List RecordBatch)
       (counts : List Nat) (index : IndexConnection) (e : Err),
      (multicollectionBuildBatches env tmpl indexes records).err = none →
      (multicollectionBuildBatches env tmpl indexes records).batches = good ++ bad :: rest →
      List.Forall₂ (fun b n =>
        batchOutcome env (multicollectionBuildBatches env tmpl indexes records).indexes b
          = .ok n) good counts →
      cmapLookup (multicollectionBuildBatches env tmpl indexes records).indexes
        bad.getNamespace = some index →
      writeBatch env index bad = .error e →
      multicollectionWriteRecords env tmpl indexes records =
        ⟨counts.sum, some e,
         (multicollectionBuildBatches env tmpl indexes records).indexes,
         (multicollectionBuildBatches env tmpl indexes records).created,
         good ++ [bad]⟩) ∧
    (∀ (env : PineconeEnv) (tmpl : Option (Record → Option String))
       (indexes : List (String × IndexConnection)) (records : List Record)
       (counts : List Nat),
      (multicollectionBuildBatches env tmpl indexes records).err = none →
      List.Forall₂ (fun b n =>
        batchOutcome env (multicollectionBuildBatches env tmpl indexes records).indexes b
          = .ok n) (multicollectionBuildBatches env tmpl indexes records).batches counts →
      multicollectionWriteRecords env tmpl indexes records =
        ⟨counts.sum, none,
         (multicollectionBuildBatches env tmpl indexes records).indexes,
         (multicollectionBuildBatches env tmpl indexes records).created,
         (multicollectionBuildBatches env tmpl indexes records).batches⟩) := by
  constructor
  · intro env tmpl indexes records good bad rest counts index e hnone hbs hgood hlook hfail
    rw [multicollectionWriteRecords]
    rw [hnone]
    dsimp only
    rw [hbs]
    rw [writeLoop_failFast env (multicollectionBuildBatches env tmpl indexes records).indexes
      good counts 0 [] bad rest index e hgood hlook hfail]
    simp
  · intro env tmpl indexes records counts hnone hall
    rw [multicollectionWriteRecords]
    rw [hnone]
    dsimp only
    rw [writeLoop_ok env (multicollectionBuildBatches env tmpl indexes records).indexes
      (multicollectionBuildBatches env tmpl indexes records).batches counts 0 [] hall]
    simp

/-- Witness for c2_writeRecords_failfast_counts: three create records over
namespaces a, b, a; the bulk upsert for namespace b fails, so only the first
batch counts, the first two batches are attempted, and the third batch (for
the unrelated namespace a) is never submitted. -/
theorem c2_witness :
    multicollectionWriteRecords envFailsOnB none []
        [nsRecord .create "k1" "a", nsRecord .create "k2" "b", nsRecord .create "k3" "a"] =
      ⟨1, some (.remote 7),
       (multicollectionBuildBatches envFailsOnB none []
         [nsRecord .create "k1" "a", nsRecord .create "k2" "b",
          nsRecord .create "k3" "a"]).indexes,
       (multicollectionBuildBatches envFailsOnB none []
         [nsRecord .create "k1" "a", nsRecord .create "k2" "b",
          nsRecord .create "k3" "a"]).created,
       [.upsert "a" [nsVector "k1" "a"], .upsert "b" [nsVector "k2" "b"]]⟩ :=
  c2_writeRecords_failfast_counts.1 envFailsOnB none []
    [nsRecord .create "k1" "a", nsRecord .create "k2" "b", nsRecord .create "k3" "a"]
    [.upsert "a" [nsVector "k1" "a"]] (.upsert "b" [nsVector "k2" "b"])
    [.upsert "a" [nsVector "k3" "a"]] [1] ⟨1⟩ (.remote 7)
    (by decide) (by decide)
    (List.Forall₂.cons (by decide) List.Forall₂.nil)
    (by decide) (by decide)

/-- One ghost step appends exactly the processed record (with its namespace)
to the concatenation of the groups. -/
theorem ghostStep_join (rec : Record) (ns : String) (batches : List RecordBatch)
    (groups : List (List (Record × String)))
    (hR : List.Forall₂ batchMatchesGroup batches groups) :
    (ghostStep rec ns batches groups).flatten = groups.flatten ++ [(rec, ns)] := by
  rw [ghostStep]
  rcases List.eq_nil_or_concat batches with hb | ⟨bs₀, b, hb⟩
  · subst hb
    cases hR
    simp
  · rw [List.concat_eq_append] at hb
    subst hb
    obtain ⟨gs₀, g, hgs, hf₀, hbg⟩ := forall2_concat_left hR
    subst hgs
    rw [List.getLast?_concat]
    dsimp only
    by_cases hns : b.getNamespace ≠ ns
    · rw [if_pos hns]
      simp
    · rw [if_neg hns]
      by_cases hcompat : b.isOperationCompatible rec = true
      · rw [if_pos hcompat]
        rw [List.dropLast_concat, List.getLast?_concat]
        simp
      · rw [if_neg hcompat]
        simp

/-- Through the builder loop the concatenated record groups extend by exactly
the processed records in arrival order. -/
theorem buildBatchesGo_order (env : PineconeEnv) (tmpl : Option (Record → Option String)) :
    ∀ (records : List Record) batches indexes created groups,
    (multicollectionBuildBatchesGo env tmpl records batches indexes created groups).err = none →
    List.Forall₂ batchMatchesGroup batches groups →
    ((multicollectionBuildBatchesGo env tmpl records batches indexes created
      groups).groups.flatten).map Prod.fst = (groups.flatten).map Prod.fst ++ records := by
  intro records
  induction records with
  | nil =>
    intro batches indexes created groups hnone hR
    simp [multicollectionBuildBatchesGo]
  | cons rec rest ih =>
    intro batches indexes created groups hnone hR
    rw [multicollectionBuildBatchesGo] at hnone ⊢
    cases h1 : parseNamespace tmpl rec with
    | error e1 =>
      simp [h1] at hnone
    | ok ns =>
      simp only [h1] at hnone
      dsimp only
      cases h2 : addIndexIfMissing env indexes ns with
      | error e2 =>
        simp [h2] at hnone
      | ok p =>
        obtain ⟨indexes', cr⟩ := p
        simp only [h2] at hnone
        dsimp only
        cases h3 : builderStep rec ns batches with
        | error e3 =>
          simp [h3] at hnone
        | ok batches' =>
          simp only [h3] at hnone
          dsimp only
          have hjoin := ghostStep_join rec ns batches groups hR
          have hstep := builderStep_matches rec ns batches groups batches' hR h3
          rw [ih batches' indexes' (created ++ cr) (ghostStep rec ns batches groups) hnone hstep]
          rw [hjoin]
          simp

/-- Supporting theorem for the intent behind claims C1 and C7: the current
multicollection builder preserves arrival order; on a successful run the
record groups backing the batches concatenate to exactly the input records in
order (together with c3_batches_homogeneous this is order preservation of the
batch contents). -/
theorem multicollection_preserves_order (env : PineconeEnv)
    (tmpl : Option (Record → Option String)) (indexes : List (String × IndexConnection))
    (records : List Record)
    (h : (multicollectionBuildBatches env tmpl indexes records).err = none) :
    (((multicollectionBuildBatches env tmpl indexes records).groups.flatten).map Prod.fst)
      = records := by
  have := buildBatchesGo_order env tmpl records [] indexes [] [] h List.Forall₂.nil
  simpa using this

/-- Witness for multicollection_preserves_order at a concrete record list. -/
theorem multicollection_preserves_order_witness :
    (((multicollectionBuildBatches envAllOk none []
        [sampleCreate "k1", sampleDelete "k2"]).groups.flatten).map Prod.fst)
      = [sampleCreate "k1", sampleDelete "k2"] :=
  multicollection_preserves_order envAllOk none [] [sampleCreate "k1", sampleDelete "k2"]
    (by decide)

/-- A batch built for a single record carries the resolved namespace of that
record. -/
theorem matches_singleton_namespace (b : RecordBatch) (rec : Record) (ns : String)
    (h : batchMatchesGroup b [(rec, ns)]) : b.getNamespace = ns := by
  obtain ⟨_, hns, _⟩ := h
  exact (hns (rec, ns) (List.mem_singleton_self _)).symm

/-- A batch built for a single record has the operation category of that
record. -/
theorem matches_singleton_kind (b : RecordBatch) (rec : Record) (ns : String)
    (h : batchMatchesGroup b [(rec, ns)]) :
    (b.isDeleteBatch = true ↔ rec.operation = .delete) := by
  obtain ⟨_, _, hmatch⟩ := h
  cases b with
  | upsert ns0 vectors =>
    obtain ⟨hops, _⟩ := hmatch
    have hne := hops (rec, ns) (List.mem_singleton_self _)
    simp only [RecordBatch.isDeleteBatch]
    exact ⟨fun hft => (Bool.false_ne_true hft).elim, fun hop => absurd hop hne⟩
  | delete ns0 ids =>
    obtain ⟨hops, _⟩ := hmatch
    have heq := hops (rec, ns) (List.mem_singleton_self _)
    simp only [RecordBatch.isDeleteBatch]
    exact ⟨fun _ => heq, fun _ => trivial⟩

/-- addRecord changes neither the namespace nor the category of a batch. -/
theorem addRecord_shape (b : RecordBatch) (rec : Record) (b' : RecordBatch)
    (h : b.addRecord rec = .ok b') :
    b'.getNamespace = b.getNamespace ∧ b'.isDeleteBatch = b.isDeleteBatch := by
  cases b with
  | upsert ns vectors =>
    dsimp only [RecordBatch.addRecord] at h
    cases hp : parsePineconeVector rec with
    | error e => rw [hp] at h; cases h
    | ok vec =>
      rw [hp] at h
      cases h
      exact ⟨rfl, rfl⟩
  | delete ns ids =>
    dsimp only [RecordBatch.addRecord] at h
    cases h
    exact ⟨rfl, rfl⟩

/-- A record rejected by isOperationCompatible has the category opposite to
the batch. -/
theorem incompatible_kind (b : RecordBatch) (rec : Record)
    (h : ¬ b.isOperationCompatible rec = true) :
    (rec.operation = .delete ↔ b.isDeleteBatch = false) := by
  cases b with
  | upsert ns0 vectors =>
    constructor
    · intro _
      rfl
    · intro _
      cases hop : rec.operation with
      | delete => rfl
      | create => exact absurd (by rw [RecordBatch.isOperationCompatible, hop]) h
      | update => exact absurd (by rw [RecordBatch.isOperationCompatible, hop]) h
      | snapshot => exact absurd (by rw [RecordBatch.isOperationCompatible, hop]) h
  | delete ns0 ids =>
    constructor
    · intro hop
      exact absurd (by rw [RecordBatch.isOperationCompatible, hop]) h
    · intro hfalse
      cases hfalse

/-- One builder iteration preserves that adjacent batches differ in namespace
or category. -/
theorem builderStep_chain (rec : Record) (ns : String) (batches batches' : List RecordBatch)
    (groups : List (List (Record × String)))
    (hR : List.Forall₂ batchMatchesGroup batches groups)
    (hc : List.Chain' differentRun batches)
    (h : builderStep rec ns batches = .ok batches') :
    List.Chain' differentRun batches' := by
  unfold builderStep at h
  rcases List.eq_nil_or_concat batches with hb | ⟨bs₀, b, hb⟩
  · subst hb
    have h' : addNewBatch rec ns [] = .ok batches' := by simpa using h
    obtain ⟨nb, hbs', hnb⟩ := addNewBatch_ok rec ns [] batches' h'
    subst hbs'
    exact List.chain'_singleton nb
  · rw [List.concat_eq_append] at hb
    subst hb
    rw [if_neg (by simp)] at h
    obtain ⟨gs₀, g, hgs, hf₀, hbg⟩ := forall2_concat_left hR
    have hlast : (bs₀ ++ [b]).getLast? = some b := List.getLast?_concat bs₀
    rw [addToPreviousBatch, hlast] at h
    dsimp only at h
    by_cases hns : b.getNamespace ≠ ns
    · rw [if_pos hns] at h
      obtain ⟨nb, hbs', hnb⟩ := addNewBatch_ok rec ns (bs₀ ++ [b]) batches' h
      subst hbs'
      refine List.Chain'.append hc (List.chain'_singleton nb) ?_
      intro x hx y hy
      rw [hlast, Option.mem_some_iff] at hx
      simp only [List.head?_cons, Option.mem_some_iff] at hy
      subst hx
      subst hy
      exact Or.inl (by rw [matches_singleton_namespace nb rec ns hnb]; exact hns)
    · rw [if_neg hns] at h
      have hnseq : b.getNamespace = ns := not_not.mp hns
      by_cases hcompat : b.isOperationCompatible rec = true
      · rw [if_pos hcompat] at h
        cases hadd : b.addRecord rec with
        | error e => rw [hadd] at h; cases h
        | ok b' =>
          rw [hadd] at h
          cases h
          rw [List.dropLast_concat]
          obtain ⟨hshape_ns, hshape_kind⟩ := addRecord_shape b rec b' hadd
          obtain ⟨hc₀, _, hrel⟩ := List.chain'_append.mp hc
          refine List.Chain'.append hc₀ (List.chain'_singleton b') ?_
          intro x hx y hy
          simp only [List.head?_cons, Option.mem_some_iff] at hy
          subst hy
          have hxb := hrel x hx b (by simp)
          rcases hxb with hxb | hxb
          · exact Or.inl (by rw [hshape_ns]; exact hxb)
          · exact Or.inr (by rw [hshape_kind]; exact hxb)
      · rw [if_neg hcompat] at h
        obtain ⟨nb, hbs', hnb⟩ := addNewBatch_ok rec ns (bs₀ ++ [b]) batches' h
        subst hbs'
        refine List.Chain'.append hc (List.chain'_singleton nb) ?_
        intro x hx y hy
        rw [hlast, Option.mem_some_iff] at hx
        simp only [List.head?_cons, Option.mem_some_iff] at hy
        subst hx
        subst hy
        refine Or.inr ?_
        have hkind := matches_singleton_kind nb rec ns hnb
        have hop := incompatible_kind b rec hcompat
        by_cases hdel : rec.operation = .delete
        · rw [hop.mp hdel, hkind.mpr hdel]
          exact Bool.false_ne_true
        · have hnb_false : nb.isDeleteBatch = false := by
            cases hk : nb.isDeleteBatch
            · rfl
            · exact absurd (hkind.mp hk) hdel
          have hb_true : b.isDeleteBatch = true := by
            cases hk : b.isDeleteBatch
            · exact absurd (hop.mpr hk) hdel
            · rfl
          rw [hnb_false, hb_true]
          exact fun hcontra => Bool.false_ne_true hcontra.symm

/-- Through the builder loop adjacent batches always differ in namespace or
category. -/
theorem buildBatchesGo_chain (env : PineconeEnv) (tmpl : Option (Record → Option String)) :
    ∀ (records : List Record) batches indexes created groups,
    (multicollectionBuildBatchesGo env tmpl records batches indexes created groups).err = none →
    List.Forall₂ batchMatchesGroup batches groups →
    List.Chain' differentRun batches →
    List.Chain' differentRun
      (multicollectionBuildBatchesGo env tmpl records batches indexes created groups).batches := by
  intro records
  induction records with
  | nil =>
    intro batches indexes created groups hnone hR hc
    simpa [multicollectionBuildBatchesGo] using hc
  | cons rec rest ih =>
    intro batches indexes created groups hnone hR hc
    rw [multicollectionBuildBatchesGo] at hnone ⊢
    cases h1 : parseNamespace tmpl rec with
    | error e1 =>
      simp [h1] at hnone
    | ok ns =>
      simp only [h1] at hnone
      dsimp only
      cases h2 : addIndexIfMissing env indexes ns with
      | error e2 =>
        simp [h2] at hnone
      | ok p =>
        obtain ⟨indexes', cr⟩ := p
        simp only [h2] at hnone
        dsimp only
        cases h3 : builderStep rec ns batches with
        | error e3 =>
          simp [h3] at hnone
        | ok batches' =>
          simp only [h3] at hnone
          dsimp only
          exact ih batches' indexes' (created ++ cr) (ghostStep rec ns batches groups) hnone
            (builderStep_matches rec ns batches groups batches' hR h3)
            (builderStep_chain rec ns batches batches' groups hR hc h3)

/-- Supporting theorem for the intent behind claim C7: in the current
multicollection builder no two adjacent returned batches share both namespace
and operation category. -/
theorem multicollection_maximal_batches (env : PineconeEnv)
    (tmpl : Option (Record → Option String)) (indexes : List (String × IndexConnection))
    (records : List Record)
    (h : (multicollectionBuildBatches env tmpl indexes records).err = none) :
    List.Chain' differentRun (multicollectionBuildBatches env tmpl indexes records).batches :=
  buildBatchesGo_chain env tmpl records [] indexes [] [] h List.Forall₂.nil List.chain'_nil

/-- Witness for multicollection_maximal_batches at a concrete record list. -/
theorem multicollection_maximal_batches_witness :
    List.Chain' differentRun (multicollectionBuildBatches envAllOk none []
      [sampleCreate "k1", sampleDelete "k2"]).batches :=
  multicollection_maximal_batches envAllOk none [] [sampleCreate "k1", sampleDelete "k2"]
    (by decide)

end PineconeConn
